import Mathlib

set_option linter.unusedVariables false

/-!
Verification of the `isles` micro-framework (packet data model, COBS framing,
request/response correlation, islet dispatch, call proxy, socket server setup,
manager shutdown) against its natural-language specification.

The Python sources `isles/isles.py` and `isles/isleExpansions.py` are embedded
shallowly: Python values that can travel in a packet become the inductive type
`PyVal`, Python exceptions become `PyErr`, fallible Python code becomes
`Except PyErr` or `Option`, and the imperative while-loops of the COBS codec
and of `requestResponse` become fuelled recursions whose fuel is large enough
to cover every iteration the Python loop can perform.
-/

namespace Isles

/-- Python exception values as far as the framework distinguishes them:
`TypeError` (caught by the islet dispatcher), `KeyError` (raised by failed
dict/route lookups), and any other exception, carried as a kind plus message. -/
inductive PyErr where
  | typeError (msg : List Char)
  | keyError (key : List Char)
  | raised (kind : List Char) (msg : List Char)
deriving DecidableEq

mutual
/-- Python values that can appear as packet data: the JSON-representable
values (`None`, `bool`, `int`, `str`, `list`, `dict` with string keys) plus
exception objects, which the framework stores in reply dictionaries under
the key `exception`.  Floating point numbers are out of scope. -/
inductive PyVal where
  | null
  | bool (b : Bool)
  | int (n : Int)
  | str (s : List Char)
  | list (items : PyList)
  | dict (fields : PyDict)
  | exc (e : PyErr)
deriving DecidableEq

/-- A Python list of `PyVal`s. -/
inductive PyList where
  | nil
  | cons (hd : PyVal) (tl : PyList)
deriving DecidableEq

/-- A Python dict from strings to `PyVal`s, in insertion order. -/
inductive PyDict where
  | nil
  | cons (key : List Char) (val : PyVal) (tl : PyDict)
deriving DecidableEq
end

/-- First value stored under `k`, mirroring Python dict lookup (a Python dict
never holds a duplicate key, so first-match equals the dict entry). -/
def PyDict.lookup (d : PyDict) (k : List Char) : Option PyVal :=
  match d with
  | .nil => none
  | .cons key v tl => if key = k then some v else tl.lookup k

/-- Membership of a string element in a Python list (`x in somelist`). -/
def PyList.containsStr (l : PyList) (k : List Char) : Bool :=
  match l with
  | .nil => false
  | .cons v tl => (v = PyVal.str k : Bool) || tl.containsStr k

/-- Substring test on strings-as-char-lists, used for Python `sub in s`. -/
def isSubstring (needle : List Char) : List Char → Bool
  | [] => needle.isEmpty
  | c :: rest => needle.isPrefixOf (c :: rest) || isSubstring needle rest

/-- Python `k in d` for the data field of a packet: key membership for a
dict, substring search for a str, element membership for a list, and a
`TypeError` for the non-iterable values (`None`, `bool`, `int`, exception). -/
def pyContains (d : PyVal) (k : List Char) : Except PyErr Bool :=
  match d with
  | .dict fields => .ok (fields.lookup k).isSome
  | .str s => .ok (isSubstring k s)
  | .list items => .ok (items.containsStr k)
  | _ => .error (.typeError ("argument is not iterable".toList))

/-- Python `d[k]` for the data field of a packet: dict lookup (raising
`KeyError` when absent) and a `TypeError` for every other value indexed by a
string. -/
def pySubscript (d : PyVal) (k : List Char) : Except PyErr PyVal :=
  match d with
  | .dict fields =>
      match fields.lookup k with
      | some v => .ok v
      | none => .error (.keyError k)
  | _ => .error (.typeError ("value cannot be indexed by a string".toList))

/-- The reply-payload key `"return"`. -/
def retKey : List Char := "return".toList

/-- The reply-payload key `"exception"`. -/
def excKey : List Char := "exception".toList

/-- The request-payload key `"args"`. -/
def argsKey : List Char := "args".toList

/-- The request-payload key `"kwargs"`. -/
def kwargsKey : List Char := "kwargs".toList

/-- Packet of `isles.py`: an identifier correlating replies to requests, the
hop lists `sender` and `receiver` (final destination first, next hop last),
and a free-form data payload.  A freshly generated uuid identifier is modelled
as an explicit argument wherever the source calls `uuid.uuid4()`. -/
structure Packet where
  identifier : List Char
  sender : List (List Char)
  receiver : List (List Char)
  data : PyVal
deriving DecidableEq

/-- Reply derivation (`Packet.createReply`): swap sender and receiver, keep
the identifier, carry the caller-supplied data. -/
def Packet.createReply (p : Packet) (d : PyVal) : Packet :=
  { identifier := p.identifier
    sender := p.receiver
    receiver := p.sender
    data := d }

/-- Packet construction by an isle (`Isle.createPacket`): the isle's own
identifier becomes the one-hop sender path; `freshId` stands for the uuid
generated by `Packet.__init__` when no identifier is supplied. -/
def Isle.createPacket (selfId freshId : List Char) (receiver : List (List Char))
    (data : PyVal) : Packet :=
  { identifier := freshId
    sender := [selfId]
    receiver := receiver
    data := data }

/-! ## COBS framing (`Peer.COBS_encode` / `Peer.COBS_decode`)

Bytes are `Nat`s below 256.  The Python while-loops advance an `index` and an
`offset` cursor over the input; they are embedded as fuelled recursions.  The
encode loop runs at most twice per index value (the 254-byte branch does not
advance `index`, but the following iteration must), so fuel `2 * length + 2`
covers every run; the decode loop advances `index` every iteration, so fuel
`length + 1` covers every run. -/

/-- Python slice `raw[offset:index]`. -/
def pySlice (raw : List Nat) (off idx : Nat) : List Nat :=
  (raw.drop off).take (idx - off)

/-- Body of the `COBS_encode` while-loop.  `coby` accumulates `coby_list`. -/
def cobsEncodeLoop (raw : List Nat) : Nat → Nat → Nat → List Nat → List Nat
  | 0, _, _, coby => coby
  | fuel + 1, index, offset, coby =>
    if _ : index < raw.length then
      if raw.getD index 0 = 0 then
        cobsEncodeLoop raw fuel (index + 1) (index + 1)
          (coby ++ [(index - offset) + 1] ++ pySlice raw offset index)
      else if index - offset = 254 then
        cobsEncodeLoop raw fuel index index (coby ++ [255] ++ pySlice raw offset index)
      else
        cobsEncodeLoop raw fuel (index + 1) offset coby
    else coby

/-- `Peer.COBS_encode`: stuff all interior zero bytes, then append the on-wire
`0x00` terminator.  (The Python method asserts that its input ends in a zero
byte; every use below satisfies that.) -/
def COBS_encode (raw : List Nat) : List Nat :=
  cobsEncodeLoop raw (2 * raw.length + 2) 0 0 [] ++ [0]

/-- Body of the `COBS_decode` while-loop. -/
def cobsDecodeLoop (raw : List Nat) : Nat → Nat → Nat → Nat → List Nat → List Nat
  | 0, _, _, _, acc => acc
  | fuel + 1, index, pointer, offset, acc =>
    if index < raw.length then
      if index = pointer then
        let acc' :=
          if pointer < 255 ∨ pointer = raw.length - 1 then
            acc ++ pySlice raw offset index ++ [0]
          else
            acc ++ pySlice raw offset index
        cobsDecodeLoop raw fuel (index + 1) (pointer + raw.getD index 0) (index + 1) acc'
      else
        cobsDecodeLoop raw fuel (index + 1) pointer offset acc
    else acc

/-- `Peer.COBS_decode`: unstuff a zero-terminated COBS frame. -/
def COBS_decode (raw : List Nat) : List Nat :=
  cobsDecodeLoop raw (raw.length + 1) 1 (raw.getD 0 0) 1 []

/-! ## Request/response correlation (`Isle.requestResponse`)

The busy-wait loop polls the inbound queue, resolves the first packet whose
identifier matches the request, re-enqueues every non-matching packet at the
back of the queue, and raises `TimeoutError` once the deadline has passed.
Time is discretised: one unit of fuel is one loop iteration (the Python loop
sleeps ~10 ms per iteration), and fuel `0` means `time.time()` has passed
`timestamp + timeout`, which the source checks at the top of each iteration
before polling. -/

/-- Result of a `requestResponse` call.  The timeout result carries exactly
the three values interpolated into the Python `TimeoutError` message: the
isle's identifier, the packet identifier, and the destination path. -/
inductive RRResult where
  | returned (v : PyVal)
  | raisedExc (e : PyVal)
  | malformed
  | timeoutError (isle : List Char) (identifier : List Char) (receiver : List (List Char))
  | crashed (e : PyErr)
deriving DecidableEq

/-- Resolution of a reply whose identifier matches the outstanding request:
`data["return"]` is returned if present, else `data["exception"]` is raised,
else the reply is malformed (lines 511-518 of `isles.py`). -/
def rrResolve (q : Packet) : RRResult :=
  match pyContains q.data retKey with
  | .error e => .crashed e
  | .ok true =>
      match pySubscript q.data retKey with
      | .ok v => .returned v
      | .error e => .crashed e
  | .ok false =>
      match pyContains q.data excKey with
      | .error e => .crashed e
      | .ok true =>
          match pySubscript q.data excKey with
          | .ok v => .raisedExc v
          | .error e => .crashed e
      | .ok false => .malformed

/-- The `while True` loop of `Isle.requestResponse`: check the deadline, poll
one packet, resolve it if it matches, otherwise throw it to the back of the
queue and go around again. -/
def requestResponseLoop (selfId reqId : List Char) (recv : List (List Char)) :
    Nat → List Packet → RRResult
  | 0, _ => .timeoutError selfId reqId recv
  | fuel + 1, [] => requestResponseLoop selfId reqId recv fuel []
  | fuel + 1, q :: qs =>
    if q.identifier = reqId then rrResolve q
    else requestResponseLoop selfId reqId recv fuel (qs ++ [q])

/-- `Isle.requestResponse`: send `p` (its identifier is what `sendPacket`
returns, its receiver is saved before the loop) and await the correlated
reply among the packets of the inbound queue. -/
def requestResponse (selfId : List Char) (p : Packet) (fuel : Nat)
    (inbound : List Packet) : RRResult :=
  requestResponseLoop selfId p.identifier p.receiver fuel inbound

/-! ## Incoming packet handling (`Isle.__handleIncomingPackets`)

Each drained packet is offered to `__handleTooLate`, then `__handleIslet`,
then `__handleShutdown`; if none takes it, a no-taker reply is constructed
but — in the source as written — never sent.  A route handler is modelled as
a function of the raw `data["args"]` and `data["kwargs"]` values; Python
argument-unpacking failures surface as the handler's own `TypeError`. -/

/-- A route handler: takes the `args` and `kwargs` payloads, returns a value
or raises. -/
def Handler : Type := PyVal → PyVal → Except PyErr PyVal

/-- The isle's route table: name to handler, as built by `_getRoutes` from
the methods carrying the `@route` decorator's `_route = True` stamp. -/
def Routes : Type := List (List Char × Handler)

/-- Lookup of `self.routes[name]` (first binding wins). -/
def routesLookup (routes : Routes) (name : List Char) : Option Handler :=
  match routes with
  | [] => none
  | (k, f) :: tl => if k = name then some f else routesLookup tl name

/-- Python `packet.receiver[-2]`. -/
def recvHop2 (receiver : List (List Char)) : List Char :=
  receiver.getD (receiver.length - 2) []

/-- Reply data `{"return": v}`. -/
def retReplyData (v : PyVal) : PyVal :=
  .dict (.cons retKey v .nil)

/-- Reply data `{"exception": e}` carrying a live exception object. -/
def excReplyData (e : PyErr) : PyVal :=
  .dict (.cons excKey (.exc e) .nil)

/-- The dropped-packet reply built (and only built) by the final branch of
`__handleIncomingPackets`. -/
def noTakerData : PyVal :=
  excReplyData (.raised ("Exception".toList) ("Packet dropped: No takers.".toList))

/-- How `__handleIncomingPackets` disposes of one drained packet.
`crashed` means an exception escaped the handler chain and aborts the isle's
event loop (`invoked` records whether a route handler had been entered);
`isletReply` means `__handleIslet` sent `reply` back (`invoked` is true when
the route handler actually ran); `dropped` means the no-taker reply was
constructed but not sent. -/
inductive IncomingOutcome where
  | crashed (invoked : Bool) (e : PyErr)
  | tooLate
  | isletReply (invoked : Bool) (reply : Packet)
  | shutdownCmd
  | dropped (replyConstructed : Packet)
deriving DecidableEq

/-- Disposition of a single incoming packet by the
`__handleTooLate or __handleIslet or __handleShutdown` chain. -/
def handleIncomingOne (routes : Routes) (p : Packet) : IncomingOutcome :=
  match pyContains p.data retKey with
  | .error e => .crashed false e
  | .ok true => .tooLate
  | .ok false =>
    if p.receiver.length = 2 then
      let name := recvHop2 p.receiver
      match routesLookup routes name with
      | none => .crashed false (.keyError name)
      | some f =>
        match pySubscript p.data argsKey with
        | .error (.typeError m) => .isletReply false (p.createReply (excReplyData (.typeError m)))
        | .error e => .crashed false e
        | .ok a =>
          match pySubscript p.data kwargsKey with
          | .error (.typeError m) => .isletReply false (p.createReply (excReplyData (.typeError m)))
          | .error e => .crashed false e
          | .ok k =>
            match f a k with
            | .ok v => .isletReply true (p.createReply (retReplyData v))
            | .error (.typeError m) => .isletReply true (p.createReply (excReplyData (.typeError m)))
            | .error e => .crashed true e
    else if p.data = PyVal.str ("shutdown".toList) then .shutdownCmd
    else .dropped (p.createReply noTakerData)

/-- Whether the disposition dispatched the packet to a route handler (the
handler was actually entered). -/
def dispatchedHandler : IncomingOutcome → Bool
  | .isletReply true _ => true
  | .crashed true _ => true
  | _ => false

/-- The packets that handling one incoming packet put on the outgoing
queue: only `__handleIslet` sends anything. -/
def sentPackets : IncomingOutcome → List Packet
  | .isletReply _ r => [r]
  | _ => []

/-! ## Call proxy (`SugarCall`) -/

/-- `SugarCall.__getattr__`: prepend the freshly accessed attribute to the
accumulated route. -/
def sugarAttr (routeAcc : List (List Char)) (attrName : List Char) : List (List Char) :=
  [attrName] ++ routeAcc

/-- `SugarCall.__call__`: build the request packet the proxy emits, with
`data = {"args": [...], "kwargs": {...}}` and the accumulated route as
receiver.  (`requestResponse` is then invoked on this packet.) -/
def sugarCallPacket (ownerId freshId : List Char) (routeAcc : List (List Char))
    (args : PyList) (kwargs : PyDict) : Packet :=
  Isle.createPacket ownerId freshId routeAcc
    (.dict (.cons argsKey (.list args)
      (.cons kwargsKey (.dict kwargs) .nil)))

/-! ## Server construction (`Server.__init__`, `isleExpansions.py`) -/

/-- The address `Server.__init__` passes to `socket.bind` before listening:
it stores the `host` argument but assigns the literal `44168` to
`self.port`, ignoring the `port` argument. -/
def serverBindAddress (host : List Char) (port : Nat) : List Char × Nat :=
  let selfHost := host
  let selfPort := 44168
  (selfHost, selfPort)

/-! ## Manager shutdown (`IsleManager.stop`)

The membership map `isles` maps identifiers to `{connection, thread}`
entries; a `TempIsle` registers itself with `thread = None`.  Only the
thread-handles matter to the join phase, so an entry is modelled as its
identifier plus `Option Nat` thread-handle.  The join phase runs
`self.isles[isle]["thread"].join()` for every entry in order; calling
`.join()` on `None` raises `AttributeError`. -/

/-- The join phase of `IsleManager.stop`: returns the list of joined
thread-handles, or the `AttributeError` raised on the first entry whose
thread-handle is `None`. -/
def stopJoinThreads : List (List Char × Option Nat) → Except PyErr (List Nat)
  | [] => .ok []
  | (_, some t) :: rest => (stopJoinThreads rest).map (fun ts => t :: ts)
  | (_, none) :: rest =>
      .error (.raised ("AttributeError".toList)
        ("NoneType object has no attribute join".toList))

/-! ## JSON text codec

Modelled from the spec: the source delegates to the Python `json` library
(out of scope per the spec; its contract is fixed by the wire format of
section 6: compact JSON, object key order as inserted, UTF-8).  `dumpVal`
plays `json.dumps(..., separators=(",", ":"))`: compact output, insertion
key order, strings JSON-escaped, integers in decimal, and a `TypeError` on
values that are not JSON serializable (exception objects).  The parser plays
`json.loads` on such texts.  Numbers are integers (floating point is out of
scope of this embedding). -/

/-- Decimal digit as a character. -/
def digitChar (n : Nat) : Char := Char.ofNat (48 + n)

/-- Lower-case hexadecimal digit as a character. -/
def hexDigitChar (n : Nat) : Char :=
  if n < 10 then Char.ofNat (48 + n) else Char.ofNat (87 + n)

/-- Decimal digits of a positive number, most significant first, in front of
`acc`. -/
def natCharsAux (n : Nat) (acc : List Char) : List Char :=
  if h : n = 0 then acc else natCharsAux (n / 10) (digitChar (n % 10) :: acc)
termination_by n
decreasing_by exact Nat.div_lt_self (Nat.pos_of_ne_zero h) (by omega)

/-- Decimal representation of a natural number (Python `repr`). -/
def natChars (n : Nat) : List Char := if n = 0 then ['0'] else natCharsAux n []

/-- Decimal representation of an integer (Python `repr`). -/
def intChars (n : Int) : List Char :=
  if n < 0 then '-' :: natChars n.natAbs else natChars n.toNat

/-- JSON escape of one character: quote and backslash get a backslash
escape, control characters a four-digit unicode escape, everything else is
emitted literally. -/
def escChar (c : Char) : List Char :=
  if c = '\"' then ['\\', '\"']
  else if c = '\\' then ['\\', '\\']
  else if c.toNat < 32 then
    ['\\', 'u', '0', '0', hexDigitChar (c.toNat / 16), hexDigitChar (c.toNat % 16)]
  else [c]

/-- JSON escape of a string body. -/
def escapeStr : List Char → List Char
  | [] => []
  | c :: rest => escChar c ++ escapeStr rest

mutual
/-- Modelled from the spec: `json.dumps` with compact separators on a packet
payload.  String keys and values are escaped; exception objects raise
`TypeError` exactly as live objects do under `json.dumps`. -/
def dumpVal : PyVal → Except PyErr (List Char)
  | .null => .ok ("null".toList)
  | .bool true => .ok ("true".toList)
  | .bool false => .ok ("false".toList)
  | .int n => .ok (intChars n)
  | .str s => .ok ('\"' :: escapeStr s ++ ['\"'])
  | .list items => do
      let s ← dumpItems items
      .ok ('[' :: s)
  | .dict fields => do
      let s ← dumpFields fields
      .ok ('\x7b' :: s)
  | .exc _ => .error (.typeError ("Object is not JSON serializable".toList))

/-- List elements separated by commas, closed by the final bracket. -/
def dumpItems : PyList → Except PyErr (List Char)
  | .nil => .ok ("]".toList)
  | .cons v .nil => do
      let s ← dumpVal v
      .ok (s ++ [']'])
  | .cons v (.cons w tl) => do
      let s ← dumpVal v
      let t ← dumpItems (.cons w tl)
      .ok (s ++ ',' :: t)

/-- Dict entries `"key":value` separated by commas, closed by the final
brace. -/
def dumpFields : PyDict → Except PyErr (List Char)
  | .nil => .ok ("\x7d".toList)
  | .cons k v .nil => do
      let s ← dumpVal v
      .ok ('\"' :: escapeStr k ++ '\"' :: ':' :: s ++ ['\x7d'])
  | .cons k v (.cons k2 v2 tl) => do
      let s ← dumpVal v
      let t ← dumpFields (.cons k2 v2 tl)
      .ok ('\"' :: escapeStr k ++ '\"' :: ':' :: s ++ ',' :: t)
end

/-- Value of one hexadecimal digit character. -/
def parseHex (c : Char) : Option Nat :=
  let n := c.toNat
  if 48 ≤ n ∧ n ≤ 57 then some (n - 48)
  else if 97 ≤ n ∧ n ≤ 102 then some (n - 87)
  else if 65 ≤ n ∧ n ≤ 70 then some (n - 55)
  else none

/-- Value of a four-digit unicode escape. -/
def parseHex4 (h1 h2 h3 h4 : Char) : Option Nat := do
  let a ← parseHex h1
  let b ← parseHex h2
  let c ← parseHex h3
  let d ← parseHex h4
  some (a * 4096 + b * 256 + c * 16 + d)

mutual
/-- Parse the body of a JSON string, after the opening quote, through the
closing quote; returns the decoded string and the remaining input. -/
def parseStringBody : List Char → Option (List Char × List Char)
  | [] => none
  | c :: rest =>
    if c = '\"' then some ([], rest)
    else if c = '\\' then parseEscape rest
    else (parseStringBody rest).map (fun r => (c :: r.1, r.2))

/-- Parse what follows a backslash inside a JSON string. -/
def parseEscape : List Char → Option (List Char × List Char)
  | [] => none
  | e :: rest2 =>
    if e = '\"' then (parseStringBody rest2).map (fun r => ('\"' :: r.1, r.2))
    else if e = '\\' then (parseStringBody rest2).map (fun r => ('\\' :: r.1, r.2))
    else if e = 'u' then parseHexQuad rest2
    else none

/-- Parse the four hex digits of a unicode escape and the rest of the
string body. -/
def parseHexQuad : List Char → Option (List Char × List Char)
  | h1 :: h2 :: h3 :: h4 :: rest3 =>
    (match parseHex4 h1 h2 h3 h4 with
     | some code => (parseStringBody rest3).map (fun r => (Char.ofNat code :: r.1, r.2))
     | none => none)
  | _ => none
end

/-- Greedily parse decimal digits, folding them onto `acc`; returns the
value and the remaining input. -/
def parseDigits : List Char → Nat → Nat × List Char
  | [], acc => (acc, [])
  | c :: rest, acc =>
    if c.isDigit then parseDigits rest (acc * 10 + (c.toNat - 48))
    else (acc, c :: rest)

/-- Parse the tail of the literal `null`. -/
def parseNullLit : List Char → Option (PyVal × List Char)
  | 'u' :: 'l' :: 'l' :: r => some (.null, r)
  | _ => none

/-- Parse the tail of the literal `true`. -/
def parseTrueLit : List Char → Option (PyVal × List Char)
  | 'r' :: 'u' :: 'e' :: r => some (.bool true, r)
  | _ => none

/-- Parse the tail of the literal `false`. -/
def parseFalseLit : List Char → Option (PyVal × List Char)
  | 'a' :: 'l' :: 's' :: 'e' :: r => some (.bool false, r)
  | _ => none

/-- Parse a number after a leading minus sign. -/
def parseNegNumber : List Char → Option (PyVal × List Char)
  | [] => none
  | d :: r =>
    if d.isDigit then
      let p := parseDigits (d :: r) 0
      some (.int (-(p.1 : Int)), p.2)
    else none

mutual
/-- Modelled from the spec: `json.loads`, specialised to the texts
`dumpVal` emits.  The fuel bounds the nesting recursion; `length + 1` is
always enough (see `vsize_le_dumpVal_length`). -/
def parseValue : Nat → List Char → Option (PyVal × List Char)
  | 0, _ => none
  | _ + 1, [] => none
  | fuel + 1, c :: rest =>
    if c = 'n' then parseNullLit rest
    else if c = 't' then parseTrueLit rest
    else if c = 'f' then parseFalseLit rest
    else if c = '\"' then (parseStringBody rest).map (fun r => (.str r.1, r.2))
    else if c = '[' then parseArrayRest fuel rest
    else if c = '\x7b' then parseObjectRest fuel rest
    else if c = '-' then parseNegNumber rest
    else if c.isDigit then
      let p := parseDigits (c :: rest) 0
      some (.int (p.1 : Int), p.2)
    else none
termination_by fuel l => (fuel, 0)

/-- Parse what follows an opening bracket: an empty array or its items. -/
def parseArrayRest : Nat → List Char → Option (PyVal × List Char)
  | _, [] => none
  | fuel, c :: r =>
    if c = ']' then some (.list .nil, r)
    else (parseItems fuel (c :: r)).map (fun p => (.list p.1, p.2))
termination_by fuel l => (fuel, 3)

/-- Parse what follows an opening brace: an empty object or its entries. -/
def parseObjectRest : Nat → List Char → Option (PyVal × List Char)
  | _, [] => none
  | fuel, c :: r =>
    if c = '\x7d' then some (.dict .nil, r)
    else (parseFields fuel (c :: r)).map (fun p => (.dict p.1, p.2))
termination_by fuel l => (fuel, 3)

/-- Parse the elements of a non-empty JSON array, through the closing
bracket. -/
def parseItems : Nat → List Char → Option (PyList × List Char)
  | 0, _ => none
  | fuel + 1, input =>
    match parseValue fuel input with
    | none => none
    | some (v, r1) => parseItemsSep fuel v r1
termination_by fuel l => (fuel, 2)

/-- Dispatch on the separator after one array element. -/
def parseItemsSep : Nat → PyVal → List Char → Option (PyList × List Char)
  | _, _, [] => none
  | fuel, v, c :: r2 =>
    if c = ']' then some (.cons v .nil, r2)
    else if c = ',' then (parseItems fuel r2).map (fun p => (.cons v p.1, p.2))
    else none
termination_by fuel v l => (fuel, 5)

/-- Parse the entries of a non-empty JSON object, through the closing
brace. -/
def parseFields : Nat → List Char → Option (PyDict × List Char)
  | 0, _ => none
  | fuel + 1, input =>
    match input with
    | '\"' :: r0 =>
      (match parseStringBody r0 with
       | none => none
       | some (k, r1) => parseFieldColon fuel k r1)
    | _ => none
termination_by fuel l => (fuel, 2)

/-- Dispatch on the colon after one object key. -/
def parseFieldColon : Nat → List Char → List Char → Option (PyDict × List Char)
  | _, _, [] => none
  | fuel, k, c :: r2 =>
    if c = ':' then
      match parseValue fuel r2 with
      | none => none
      | some (v, r3) => parseFieldSep fuel k v r3
    else none
termination_by fuel k l => (fuel, 6)

/-- Dispatch on the separator after one object entry. -/
def parseFieldSep : Nat → List Char → PyVal → List Char → Option (PyDict × List Char)
  | _, _, _, [] => none
  | fuel, k, v, c :: r4 =>
    if c = '\x7d' then some (.cons k v .nil, r4)
    else if c = ',' then (parseFields fuel r4).map (fun p => (.cons k v p.1, p.2))
    else none
termination_by fuel k v l => (fuel, 5)
end

mutual
/-- Structural size of a payload, used as a lower bound for parser fuel. -/
def vsize : PyVal → Nat
  | .list items => lsize items + 1
  | .dict fields => dsize fields + 1
  | _ => 1

/-- Structural size of a list payload. -/
def lsize : PyList → Nat
  | .nil => 0
  | .cons v tl => vsize v + lsize tl + 1

/-- Structural size of a dict payload. -/
def dsize : PyDict → Nat
  | .nil => 0
  | .cons _ v tl => vsize v + dsize tl + 1
end

/-- The keys of a dict, in order. -/
def PyDict.keys : PyDict → List (List Char)
  | .nil => []
  | .cons k _ tl => k :: tl.keys

mutual
/-- Whether a payload is well-typed for serialization: built only from the
JSON-representable constructors (no live exception objects), with no
duplicate keys inside any dict (a Python dict cannot hold duplicates). -/
def serializableB : PyVal → Bool
  | .null => true
  | .bool _ => true
  | .int _ => true
  | .str _ => true
  | .list items => serializableListB items
  | .dict fields => decide fields.keys.Nodup && serializableDictB fields
  | .exc _ => false

/-- Elementwise serializability of a list payload. -/
def serializableListB : PyList → Bool
  | .nil => true
  | .cons v tl => serializableB v && serializableListB tl

/-- Valuewise serializability of a dict payload. -/
def serializableDictB : PyDict → Bool
  | .nil => true
  | .cons _ v tl => serializableB v && serializableDictB tl
end

/-! ## UTF-8 byte codec

Modelled from the spec: `str.encode()` / `bytes.decode()` (the spec fixes
the byte representation as the UTF-8 encoding of the JSON text).  The
decoder rejects truncated sequences, stray continuation bytes, overlong
encodings, surrogates and out-of-range code points, as Python's strict
UTF-8 decoder does. -/

/-- UTF-8 bytes of one unicode scalar value. -/
def utf8EncodeChar (c : Char) : List Nat :=
  let n := c.toNat
  if n < 0x80 then [n]
  else if n < 0x800 then [0xC0 + n / 64, 0x80 + n % 64]
  else if n < 0x10000 then [0xE0 + n / 4096, 0x80 + (n / 64) % 64, 0x80 + n % 64]
  else [0xF0 + n / 0x40000, 0x80 + (n / 4096) % 64, 0x80 + (n / 64) % 64, 0x80 + n % 64]

/-- UTF-8 encoding of a string (`str.encode()`). -/
def utf8Encode : List Char → List Nat
  | [] => []
  | c :: s => utf8EncodeChar c ++ utf8Encode s

mutual
/-- Strict UTF-8 decoding of a byte string (`bytes.decode()`). -/
def utf8Decode : List Nat → Option (List Char)
  | [] => some []
  | b :: rest =>
    if b < 0x80 then (utf8Decode rest).map (fun s => Char.ofNat b :: s)
    else if b < 0xC0 then none
    else if b < 0xE0 then utf8Tail1 b rest
    else if b < 0xF0 then utf8Tail2 b rest
    else if b < 0xF8 then utf8Tail3 b rest
    else none

/-- Continuation byte of a two-byte UTF-8 sequence. -/
def utf8Tail1 (b : Nat) : List Nat → Option (List Char)
  | b2 :: rest2 =>
    if 0x80 ≤ b2 ∧ b2 < 0xC0 then
      let n := (b - 0xC0) * 64 + (b2 - 0x80)
      if 0x80 ≤ n then (utf8Decode rest2).map (fun s => Char.ofNat n :: s) else none
    else none
  | [] => none

/-- Continuation bytes of a three-byte UTF-8 sequence. -/
def utf8Tail2 (b : Nat) : List Nat → Option (List Char)
  | b2 :: b3 :: rest3 =>
    if (0x80 ≤ b2 ∧ b2 < 0xC0) ∧ (0x80 ≤ b3 ∧ b3 < 0xC0) then
      let n := (b - 0xE0) * 4096 + (b2 - 0x80) * 64 + (b3 - 0x80)
      if 0x800 ≤ n ∧ ¬ (0xD800 ≤ n ∧ n < 0xE000) then
        (utf8Decode rest3).map (fun s => Char.ofNat n :: s)
      else none
    else none
  | _ => none

/-- Continuation bytes of a four-byte UTF-8 sequence. -/
def utf8Tail3 (b : Nat) : List Nat → Option (List Char)
  | b2 :: b3 :: b4 :: rest4 =>
    if (0x80 ≤ b2 ∧ b2 < 0xC0) ∧ ((0x80 ≤ b3 ∧ b3 < 0xC0) ∧ (0x80 ≤ b4 ∧ b4 < 0xC0)) then
      let n := (b - 0xF0) * 0x40000 + (b2 - 0x80) * 4096 + (b3 - 0x80) * 64 + (b4 - 0x80)
      if 0x10000 ≤ n ∧ n < 0x110000 then
        (utf8Decode rest4).map (fun s => Char.ofNat n :: s)
      else none
    else none
  | _ => none
end

/-! ## Packet serialization (`toDict`/`toJSON`/`toBytes` and the
`createFrom*` constructors) -/

/-- A hop list as a Python list of strings. -/
def pyListOfStrings : List (List Char) → PyList
  | [] => .nil
  | s :: tl => .cons (.str s) (pyListOfStrings tl)

/-- Read back a Python list of strings; `none` when an element is not a
string.  (The spec types `sender`/`receiver` as hop-identifier sequences.) -/
def PyList.asStrings : PyList → Option (List (List Char))
  | .nil => some []
  | .cons (.str s) tl => (tl.asStrings).map (fun l => s :: l)
  | .cons _ _ => none

/-- `Packet.toDict`: the four fields under their names, in source order
`identifier, sender, receiver, data`. -/
def Packet.toDict (p : Packet) : PyVal :=
  .dict (.cons ("identifier".toList) (.str p.identifier)
    (.cons ("sender".toList) (.list (pyListOfStrings p.sender))
      (.cons ("receiver".toList) (.list (pyListOfStrings p.receiver))
        (.cons ("data".toList) p.data .nil))))

/-- `Packet.createFromDict`: rebuild a packet from its dict representation,
reading the `sender`, `receiver`, `data` and `identifier` entries.  The
identifier must be a string and the hop paths lists of strings, per the
spec's packet data model. -/
def Packet.createFromDict (v : PyVal) : Option Packet :=
  match v with
  | .dict fields => do
      let sv ← fields.lookup ("sender".toList)
      let rv ← fields.lookup ("receiver".toList)
      let dv ← fields.lookup ("data".toList)
      let iv ← fields.lookup ("identifier".toList)
      match iv, sv, rv with
      | .str i, .list sl, .list rl => do
          let s ← sl.asStrings
          let r ← rl.asStrings
          some (Packet.mk i s r dv)
      | _, _, _ => none
  | _ => none

/-- `Packet.toJSON`: compact JSON text of `toDict` (raises `TypeError` when
the data payload is not serializable). -/
def Packet.toJSON (p : Packet) : Except PyErr (List Char) :=
  dumpVal p.toDict

/-- `Packet.createFromJSON`: parse the JSON text (whole, as `json.loads`
requires) and rebuild via `createFromDict`. -/
def Packet.createFromJSON (s : List Char) : Option Packet :=
  match parseValue (s.length + 1) s with
  | some (v, []) => Packet.createFromDict v
  | _ => none

/-- `Packet.toBytes`: UTF-8 bytes of the JSON text. -/
def Packet.toBytes (p : Packet) : Except PyErr (List Nat) :=
  (p.toJSON).map utf8Encode

/-- `Packet.createFromBytes`: decode the bytes, then parse the JSON text. -/
def Packet.createFromBytes (bs : List Nat) : Option Packet :=
  (utf8Decode bs).bind Packet.createFromJSON

/-- Head-of-input digit test: an integer token can only be extended by a
digit, so round-trip statements exclude a digit right after the text. -/
def headDigit : List Char → Bool
  | [] => false
  | c :: _ => c.isDigit

/-- Number of decimal digits emitted by `natCharsAux` (proof measure). -/
def numDigits (n : Nat) : Nat :=
  if h : n = 0 then 0 else numDigits (n / 10) + 1
termination_by n
decreasing_by exact Nat.div_lt_self (Nat.pos_of_ne_zero h) (by omega)

/-! ## Concrete fixtures

Concrete isles, routes and packets used to evaluate the model at specific
inputs (mirroring the repository's own unit-test fixtures). -/

/-- Request data `{"args": [], "kwargs": {}}` of an argumentless call. -/
def emptyCallData : PyVal :=
  .dict (.cons argsKey (.list .nil)
    (.cons kwargsKey (.dict .nil) .nil))

/-- A route table exposing one handler `f` that returns `None`. -/
def exampleRoutesF : Routes :=
  [("f".toList, fun _ _ => .ok .null)]

/-- A route table exposing one handler `boom` that raises `ValueError`. -/
def exampleRoutesBoom : Routes :=
  [("boom".toList, fun _ _ => .error (.raised ("ValueError".toList) ("boom".toList)))]

/-- A request packet for islet `f` whose receiver tail names isle `B`. -/
def isletMismatchPacket : Packet :=
  { identifier := "id1".toList
    sender := ["caller".toList]
    receiver := ["f".toList, "B".toList]
    data := emptyCallData }

/-- A request packet for the raising handler `boom` on isle `eiland`. -/
def handlerErrorPacket : Packet :=
  { identifier := "id2".toList
    sender := ["caller".toList]
    receiver := ["boom".toList, "eiland".toList]
    data := emptyCallData }

/-- A packet no predicate takes: one-hop receiver, no reply marker, not a
shutdown command. -/
def noTakerPacket : Packet :=
  { identifier := "id3".toList
    sender := ["caller".toList]
    receiver := ["X".toList]
    data := .dict .nil }

/-- A pending request packet, as sent by `requestResponse`. -/
def pendingRequestPacket : Packet :=
  { identifier := "rid".toList
    sender := ["me".toList]
    receiver := ["double".toList, "srv".toList]
    data := emptyCallData }

/-- An unrelated packet sitting in the inbound queue ahead of the reply. -/
def unrelatedPacket : Packet :=
  { identifier := "other".toList
    sender := ["third".toList]
    receiver := ["me".toList]
    data := .dict .nil }

/-- A packet with a nested, JSON-representable payload, mirroring the
repository's `test_Packet` fixtures. -/
def examplePacketA : Packet :=
  { identifier := "Spam".toList
    sender := ["Alice".toList]
    receiver := ["Bob".toList]
    data := .dict (.cons ("a".toList) (.int 1)
      (.cons ("b".toList) (.int (-2))
        (.cons ("c".toList)
          (.list (.cons (.int 3) (.cons (.str ("4\n5".toList)) (.cons (.bool true) (.cons .null .nil)))))
          .nil))) }

/-! # Theorems -/
/-! ## Number serialization lemmas -/

/-- A digit character differs from any non-digit character. -/
theorem isDigit_ne_of_not (c e : Char) (hc : c.isDigit = true) (he : e.isDigit = false) :
    c ≠ e := by
  intro h
  subst h
  rw [hc] at he
  exact Bool.noConfusion he

/-- Code point of a digit character. -/
theorem digitChar_toNat (n : Nat) (h : n < 10) : (digitChar n).toNat = 48 + n := by
  interval_cases n <;> decide

/-- A digit character is a digit. -/
theorem digitChar_isDigit (n : Nat) (h : n < 10) : (digitChar n).isDigit = true := by
  interval_cases n <;> decide

/-- `parseDigits` consumes exactly a block of digit characters, folding
their value, and leaves a non-digit-led remainder untouched. -/
theorem parseDigits_append (ds : List Char) : ∀ (rest : List Char) (acc : Nat),
    (∀ c ∈ ds, c.isDigit = true) → headDigit rest = false →
    parseDigits (ds ++ rest) acc
      = (ds.foldl (fun x c => x * 10 + (c.toNat - 48)) acc, rest) := by
  induction ds with
  | nil =>
      intro rest acc hds hrest
      cases rest with
      | nil => rfl
      | cons c r =>
          simp only [headDigit] at hrest
          simp [parseDigits, hrest]
  | cons d ds ih =>
      intro rest acc hds hrest
      have hd : d.isDigit = true := hds d (by simp)
      simp [parseDigits, hd, ih rest _ (fun c hc => hds c (by simp [hc])) hrest]

/-- All characters `natCharsAux` produces over a digit accumulator are
digits. -/
theorem natCharsAux_digits (n : Nat) : ∀ (acc : List Char),
    (∀ c ∈ acc, c.isDigit = true) → ∀ c ∈ natCharsAux n acc, c.isDigit = true := by
  induction n using Nat.strong_induction_on with
  | _ n ih =>
    intro acc hacc c hc
    by_cases h0 : n = 0
    · subst h0
      rw [natCharsAux] at hc
      exact hacc c (by simpa using hc)
    · rw [natCharsAux, dif_neg h0] at hc
      refine ih (n / 10) (Nat.div_lt_self (Nat.pos_of_ne_zero h0) (by omega)) _ ?_ c hc
      intro x hx
      rcases List.mem_cons.mp hx with h | h
      · subst h
        exact digitChar_isDigit (n % 10) (Nat.mod_lt n (by omega))
      · exact hacc x h

/-- `natCharsAux` pushes at least one digit in front of the accumulator
when its input is positive. -/
theorem natCharsAux_shape (n : Nat) (h0 : n ≠ 0) : ∀ (acc : List Char),
    ∃ ds c, natCharsAux n acc = ds ++ c :: acc := by
  induction n using Nat.strong_induction_on with
  | _ n ih =>
    intro acc
    rw [natCharsAux, dif_neg h0]
    by_cases h1 : n / 10 = 0
    · rw [natCharsAux, dif_pos h1]
      exact ⟨[], digitChar (n % 10), rfl⟩
    · obtain ⟨ds, c, hdc⟩ :=
        ih (n / 10) (Nat.div_lt_self (Nat.pos_of_ne_zero h0) (by omega)) h1
          (digitChar (n % 10) :: acc)
      exact ⟨ds ++ [c], digitChar (n % 10), by simpa using hdc⟩

/-- Folding the decimal digits of `n` onto `a` multiplies `a` by the right
power of ten and adds `n`. -/
theorem natCharsAux_foldl (n : Nat) : ∀ (acc : List Char) (a : Nat),
    (natCharsAux n acc).foldl (fun x c => x * 10 + (c.toNat - 48)) a
      = acc.foldl (fun x c => x * 10 + (c.toNat - 48)) (a * 10 ^ numDigits n + n) := by
  induction n using Nat.strong_induction_on with
  | _ n ih =>
    intro acc a
    by_cases h0 : n = 0
    · subst h0
      rw [natCharsAux]
      simp [numDigits]
    · rw [natCharsAux, dif_neg h0,
        ih (n / 10) (Nat.div_lt_self (Nat.pos_of_ne_zero h0) (by omega)) _ a]
      simp only [List.foldl_cons]
      rw [digitChar_toNat (n % 10) (Nat.mod_lt n (by omega))]
      rw [show numDigits n = numDigits (n / 10) + 1 by rw [numDigits, dif_neg h0]]
      rw [pow_succ, ← mul_assoc]
      congr 1
      omega

/-- `natChars n` is never empty. -/
theorem natChars_ne_nil (n : Nat) : natChars n ≠ [] := by
  by_cases h0 : n = 0
  · simp [natChars, h0]
  · rw [natChars, if_neg h0]
    obtain ⟨ds, c, hdc⟩ := natCharsAux_shape n h0 []
    rw [hdc]
    simp

/-- Every character of `natChars n` is a digit. -/
theorem natChars_digits (n : Nat) : ∀ c ∈ natChars n, c.isDigit = true := by
  by_cases h0 : n = 0
  · intro c hc
    rw [natChars, if_pos h0] at hc
    simp at hc
    subst hc
    decide
  · rw [natChars, if_neg h0]
    exact natCharsAux_digits n [] (by simp)

/-- The digit fold of `natChars n` recovers `n`. -/
theorem natChars_val (n : Nat) :
    (natChars n).foldl (fun x c => x * 10 + (c.toNat - 48)) 0 = n := by
  by_cases h0 : n = 0
  · subst h0
    decide
  · rw [natChars, if_neg h0, natCharsAux_foldl n [] 0]
    simp

/-- `natChars n` starts with a digit character. -/
theorem natChars_cons (n : Nat) :
    ∃ c cs, natChars n = c :: cs ∧ c.isDigit = true := by
  cases hnc : natChars n with
  | nil => exact absurd hnc (natChars_ne_nil n)
  | cons c cs =>
      refine ⟨c, cs, rfl, ?_⟩
      exact natChars_digits n c (by rw [hnc]; simp)


/-- `parseValue` reads back a natural-number token. -/
theorem parseValue_natToken (m : Nat) (fuel : Nat) (rest : List Char)
    (hrest : headDigit rest = false) :
    parseValue (fuel + 1) (natChars m ++ rest) = some (.int (m : Int), rest) := by
  obtain ⟨c, cs, hcons, hcdig⟩ := natChars_cons m
  rw [hcons]
  have hne : ∀ e : Char, e.isDigit = false → ¬ (c = e) := fun e he =>
    isDigit_ne_of_not c e hcdig he
  simp only [List.cons_append, parseValue]
  rw [if_neg (hne 'n' (by decide)), if_neg (hne 't' (by decide)),
    if_neg (hne 'f' (by decide)), if_neg (hne '\"' (by decide)),
    if_neg (hne '[' (by decide)), if_neg (hne '\x7b' (by decide)),
    if_neg (hne '-' (by decide)), if_pos hcdig]
  rw [show c :: (cs ++ rest) = (c :: cs) ++ rest from rfl,
    parseDigits_append (c :: cs) rest 0 (by rw [← hcons]; exact natChars_digits m) hrest]
  rw [show (c :: cs).foldl (fun x c => x * 10 + (c.toNat - 48)) 0 = m from by
    rw [← hcons]; exact natChars_val m]

/-- `parseValue` reads back an integer token. -/
theorem parseValue_intChars (n : Int) (fuel : Nat) (rest : List Char)
    (hrest : headDigit rest = false) :
    parseValue (fuel + 1) (intChars n ++ rest) = some (.int n, rest) := by
  by_cases hn : n < 0
  · rw [intChars, if_pos hn]
    obtain ⟨c, cs, hcons, hcdig⟩ := natChars_cons n.natAbs
    rw [hcons]
    simp only [List.cons_append, parseValue, parseNegNumber]
    simp only [hcdig, if_true]
    rw [show c :: (cs ++ rest) = (c :: cs) ++ rest from rfl,
      parseDigits_append (c :: cs) rest 0 (by rw [← hcons]; exact natChars_digits n.natAbs) hrest]
    rw [show (c :: cs).foldl (fun x c => x * 10 + (c.toNat - 48)) 0 = n.natAbs from by
      rw [← hcons]; exact natChars_val n.natAbs]
    have hval : -((n.natAbs : Nat) : Int) = n := by omega
    rw [hval]
    simp
  · rw [intChars, if_neg hn, parseValue_natToken n.toNat fuel rest hrest]
    have hval : ((n.toNat : Nat) : Int) = n := by omega
    rw [hval]

/-! ## String serialization lemmas -/

/-- `parseHex` inverts `hexDigitChar` on hex digits. -/
theorem parseHex_hexDigitChar (n : Nat) (h : n < 16) :
    parseHex (hexDigitChar n) = some n := by
  interval_cases n <;> decide

/-- `parseStringBody` inverts `escapeStr` through the closing quote. -/
theorem parseStringBody_escape (s : List Char) : ∀ (rest : List Char),
    parseStringBody (escapeStr s ++ ('\"' :: rest)) = some (s, rest) := by
  induction s with
  | nil =>
      intro rest
      simp [escapeStr, parseStringBody]
  | cons c cs ih =>
      intro rest
      by_cases h1 : c = '\"'
      · subst h1
        rw [show escapeStr ('\"' :: cs) = '\\' :: '\"' :: escapeStr cs from by
          simp [escapeStr, escChar]]
        simp only [List.cons_append, List.append_eq, parseStringBody, parseEscape]
        simp only [ih rest]
        rfl
      · by_cases h2 : c = '\\'
        · subst h2
          rw [show escapeStr ('\\' :: cs) = '\\' :: '\\' :: escapeStr cs from by
            simp [escapeStr, escChar]]
          simp only [List.cons_append, List.append_eq, parseStringBody, parseEscape]
          simp only [ih rest]
          rfl
        · by_cases h3 : c.toNat < 32
          · rw [show escapeStr (c :: cs)
                = '\\' :: 'u' :: '0' :: '0' :: hexDigitChar (c.toNat / 16)
                  :: hexDigitChar (c.toNat % 16) :: escapeStr cs from by
              simp [escapeStr, escChar, h1, h2, h3]]
            have hq1 := parseHex_hexDigitChar (c.toNat / 16) (by omega)
            have hq2 := parseHex_hexDigitChar (c.toNat % 16) (by omega)
            have harith : c.toNat / 16 * 16 + c.toNat % 16 = c.toNat := by omega
            have hp0 : parseHex '0' = some 0 := by decide
            simp [parseStringBody, parseEscape, parseHexQuad, parseHex4, hp0, hq1, hq2, ih rest,
              harith, Char.ofNat_toNat]
          · rw [show escapeStr (c :: cs) = c :: escapeStr cs from by
              simp [escapeStr, escChar, h1, h2, h3]]
            simp only [List.cons_append, List.append_eq, parseStringBody]
            rw [if_neg h1, if_neg h2]
            simp only [ih rest]
            rfl


/-! ## UTF-8 codec lemmas -/

/-- The validity invariant of a `Char`, in terms of its code point. -/
theorem char_valid_nat (c : Char) :
    c.toNat < 0xD800 ∨ (0xDFFF < c.toNat ∧ c.toNat < 0x110000) := c.valid

/-- Decoding inverts the encoding of one character at the head of a byte
string. -/
theorem utf8Decode_encodeChar (c : Char) (bs : List Nat) :
    utf8Decode (utf8EncodeChar c ++ bs) = (utf8Decode bs).map (fun s => c :: s) := by
  have hval := char_valid_nat c
  by_cases h1 : c.toNat < 0x80
  · rw [show utf8EncodeChar c = [c.toNat] from by simp [utf8EncodeChar, h1]]
    simp only [List.cons_append, List.nil_append]
    rw [utf8Decode, if_pos h1, Char.ofNat_toNat]
  · by_cases h2 : c.toNat < 0x800
    · rw [show utf8EncodeChar c = [0xC0 + c.toNat / 64, 0x80 + c.toNat % 64] from by
        simp [utf8EncodeChar, h1, h2]]
      simp only [List.cons_append, List.nil_append]
      rw [utf8Decode, if_neg (by omega), if_neg (by omega), if_pos (by omega)]
      rw [utf8Tail1, if_pos (by omega)]
      rw [show (0xC0 + c.toNat / 64 - 0xC0) * 64 + (0x80 + c.toNat % 64 - 0x80) = c.toNat from by
        omega]
      rw [if_pos (by omega), Char.ofNat_toNat]
    · by_cases h3 : c.toNat < 0x10000
      · rw [show utf8EncodeChar c
            = [0xE0 + c.toNat / 4096, 0x80 + c.toNat / 64 % 64, 0x80 + c.toNat % 64] from by
          simp [utf8EncodeChar, h1, h2, h3]]
        simp only [List.cons_append, List.nil_append]
        rw [utf8Decode, if_neg (by omega), if_neg (by omega), if_neg (by omega),
          if_pos (by omega)]
        rw [utf8Tail2, if_pos (by constructor <;> omega)]
        rw [show (0xE0 + c.toNat / 4096 - 0xE0) * 4096 + (0x80 + c.toNat / 64 % 64 - 0x80) * 64
            + (0x80 + c.toNat % 64 - 0x80) = c.toNat from by omega]
        rw [if_pos (by constructor <;> omega), Char.ofNat_toNat]
      · rw [show utf8EncodeChar c
            = [0xF0 + c.toNat / 0x40000, 0x80 + c.toNat / 4096 % 64,
               0x80 + c.toNat / 64 % 64, 0x80 + c.toNat % 64] from by
          simp [utf8EncodeChar, h1, h2, h3]]
        simp only [List.cons_append, List.nil_append]
        rw [utf8Decode, if_neg (by omega), if_neg (by omega), if_neg (by omega),
          if_neg (by omega), if_pos (by omega)]
        rw [utf8Tail3, if_pos (by refine ⟨by omega, by omega, by omega⟩)]
        rw [show (0xF0 + c.toNat / 0x40000 - 0xF0) * 0x40000
            + (0x80 + c.toNat / 4096 % 64 - 0x80) * 4096
            + (0x80 + c.toNat / 64 % 64 - 0x80) * 64
            + (0x80 + c.toNat % 64 - 0x80) = c.toNat from by omega]
        rw [if_pos (by constructor <;> omega), Char.ofNat_toNat]

/-- Modelled contract of the byte codec: decoding inverts encoding. -/
theorem utf8Decode_encode (s : List Char) : utf8Decode (utf8Encode s) = some s := by
  induction s with
  | nil => rfl
  | cons c cs ih =>
      rw [utf8Encode, utf8Decode_encodeChar, ih]
      rfl

/-! ## Packet dictionary lemmas -/

/-- Reading a hop list back from its Python-list form. -/
theorem asStrings_pyListOfStrings (l : List (List Char)) :
    (pyListOfStrings l).asStrings = some l := by
  induction l with
  | nil => rfl
  | cons s tl ih => simp [pyListOfStrings, PyList.asStrings, ih]

/-- Claim helper: `createFromDict` inverts `toDict` on every packet. -/
theorem createFromDict_toDict (p : Packet) :
    Packet.createFromDict p.toDict = some p := by
  simp [Packet.toDict, Packet.createFromDict, PyDict.lookup, asStrings_pyListOfStrings]

/-- Bind on a successful `Except` computes the continuation. -/
theorem except_ok_bind {e a b : Type} (x : a) (f : a → Except e b) :
    ((Except.ok x : Except e a) >>= f) = f x := rfl

/-- Bind on a failed `Except` propagates the error. -/
theorem except_error_bind {e a b : Type} (x : e) (f : a → Except e b) :
    ((Except.error x : Except e a) >>= f) = Except.error x := rfl

/-! ## Serializability lemmas -/

mutual
/-- A serializable payload is accepted by `dumpVal`. -/
theorem serializable_dumpVal_ok (v : PyVal) (h : serializableB v = true) :
    ∃ out, dumpVal v = .ok out := by
  cases v with
  | null => exact ⟨_, rfl⟩
  | bool b => cases b <;> exact ⟨_, rfl⟩
  | int n => exact ⟨_, rfl⟩
  | str s => exact ⟨_, rfl⟩
  | list items =>
      obtain ⟨s, hs⟩ := serializable_dumpItems_ok items (by simpa [serializableB] using h)
      exact ⟨'[' :: s, by simp [except_ok_bind, except_error_bind, dumpVal, hs]⟩
  | dict fields =>
      have h2 : serializableDictB fields = true := by
        have := h
        simp [serializableB, Bool.and_eq_true] at this
        exact this.2
      obtain ⟨s, hs⟩ := serializable_dumpFields_ok fields h2
      exact ⟨'\x7b' :: s, by simp [except_ok_bind, except_error_bind, dumpVal, hs]⟩
  | exc e => simp [serializableB] at h

/-- A serializable list payload is accepted by `dumpItems`. -/
theorem serializable_dumpItems_ok (l : PyList) (h : serializableListB l = true) :
    ∃ out, dumpItems l = .ok out := by
  cases l with
  | nil => exact ⟨_, rfl⟩
  | cons v tl =>
      have hparts : serializableB v = true ∧ serializableListB tl = true := by
        simpa [serializableListB, Bool.and_eq_true] using h
      obtain ⟨sv, hv⟩ := serializable_dumpVal_ok v hparts.1
      cases tl with
      | nil => exact ⟨sv ++ [']'], by simp [except_ok_bind, except_error_bind, dumpItems, hv]⟩
      | cons w tl2 =>
          obtain ⟨st, ht⟩ := serializable_dumpItems_ok (.cons w tl2) hparts.2
          exact ⟨sv ++ ',' :: st, by simp [except_ok_bind, except_error_bind, dumpItems, hv, ht]⟩

/-- A serializable dict payload is accepted by `dumpFields`. -/
theorem serializable_dumpFields_ok (d : PyDict) (h : serializableDictB d = true) :
    ∃ out, dumpFields d = .ok out := by
  cases d with
  | nil => exact ⟨_, rfl⟩
  | cons k v tl =>
      have hparts : serializableB v = true ∧ serializableDictB tl = true := by
        simpa [serializableDictB, Bool.and_eq_true] using h
      obtain ⟨sv, hv⟩ := serializable_dumpVal_ok v hparts.1
      cases tl with
      | nil => exact ⟨'\"' :: escapeStr k ++ '\"' :: ':' :: sv ++ ['\x7d'],
          by simp [except_ok_bind, except_error_bind, dumpFields, hv]⟩
      | cons k2 v2 tl2 =>
          obtain ⟨st, ht⟩ := serializable_dumpFields_ok (.cons k2 v2 tl2) hparts.2
          exact ⟨'\"' :: escapeStr k ++ '\"' :: ':' :: sv ++ ',' :: st,
            by simp [except_ok_bind, except_error_bind, dumpFields, hv, ht]⟩
end

/-! ## Parser fuel lemmas -/

mutual
/-- The size of a payload is bounded by the length of its JSON text. -/
theorem vsize_le_dumpVal_length (v : PyVal) : ∀ (out : List Char),
    dumpVal v = .ok out → vsize v ≤ out.length := by
  intro out h
  cases v with
  | null =>
      rw [show out = "null".toList from by simpa [except_ok_bind, except_error_bind, dumpVal] using h.symm]
      simp [vsize]
  | bool b =>
      cases b <;>
        · rw [show out = _ from by simpa [except_ok_bind, except_error_bind, dumpVal] using h.symm]
          simp [vsize]
  | int n =>
      rw [show out = intChars n from by simpa [except_ok_bind, except_error_bind, dumpVal] using h.symm]
      obtain ⟨c, cs, hcons, _⟩ := natChars_cons n.natAbs
      obtain ⟨c2, cs2, hcons2, _⟩ := natChars_cons n.toNat
      by_cases hn : n < 0 <;> simp [vsize, intChars, hn, hcons, hcons2]
  | str s =>
      rw [show out = '\"' :: escapeStr s ++ ['\"'] from by simpa [except_ok_bind, except_error_bind, dumpVal] using h.symm]
      simp [vsize]
  | list items =>
      cases hs : dumpItems items with
      | error e => simp [except_ok_bind, except_error_bind, dumpVal, hs] at h
      | ok st =>
          rw [show out = '[' :: st from by simpa [except_ok_bind, except_error_bind, dumpVal, hs] using h.symm]
          have := lsize_le_dumpItems_length items st hs
          simp [vsize]
          omega
  | dict fields =>
      cases hs : dumpFields fields with
      | error e => simp [except_ok_bind, except_error_bind, dumpVal, hs] at h
      | ok st =>
          rw [show out = '\x7b' :: st from by simpa [except_ok_bind, except_error_bind, dumpVal, hs] using h.symm]
          have := dsize_le_dumpFields_length fields st hs
          simp [vsize]
          omega
  | exc e => simp [except_ok_bind, except_error_bind, dumpVal] at h

/-- The size of a list payload is bounded by the length of its item text. -/
theorem lsize_le_dumpItems_length (l : PyList) : ∀ (out : List Char),
    dumpItems l = .ok out → lsize l ≤ out.length := by
  intro out h
  cases l with
  | nil => simp [lsize]
  | cons v tl =>
      cases hv : dumpVal v with
      | error e => cases tl <;> simp [except_ok_bind, except_error_bind, dumpItems, hv] at h
      | ok sv =>
          have h1 := vsize_le_dumpVal_length v sv hv
          cases tl with
          | nil =>
              rw [show out = sv ++ [']'] from by simpa [except_ok_bind, except_error_bind, dumpItems, hv] using h.symm]
              simp [lsize]
              omega
          | cons w tl2 =>
              cases ht : dumpItems (.cons w tl2) with
              | error e => simp [except_ok_bind, except_error_bind, dumpItems, hv, ht] at h
              | ok st =>
                  rw [show out = sv ++ ',' :: st from by simpa [except_ok_bind, except_error_bind, dumpItems, hv, ht] using h.symm]
                  have h2 := lsize_le_dumpItems_length (.cons w tl2) st ht
                  simp [lsize]
                  simp [lsize] at h2
                  omega

/-- The size of a dict payload is bounded by the length of its entry
text. -/
theorem dsize_le_dumpFields_length (d : PyDict) : ∀ (out : List Char),
    dumpFields d = .ok out → dsize d ≤ out.length := by
  intro out h
  cases d with
  | nil => simp [dsize]
  | cons k v tl =>
      cases hv : dumpVal v with
      | error e => cases tl <;> simp [except_ok_bind, except_error_bind, dumpFields, hv] at h
      | ok sv =>
          have h1 := vsize_le_dumpVal_length v sv hv
          cases tl with
          | nil =>
              rw [show out = '\"' :: escapeStr k ++ '\"' :: ':' :: sv ++ ['\x7d'] from by
                simpa [except_ok_bind, except_error_bind, dumpFields, hv] using h.symm]
              simp [dsize]
              omega
          | cons k2 v2 tl2 =>
              cases ht : dumpFields (.cons k2 v2 tl2) with
              | error e => simp [except_ok_bind, except_error_bind, dumpFields, hv, ht] at h
              | ok st =>
                  rw [show out = '\"' :: escapeStr k ++ '\"' :: ':' :: sv ++ ',' :: st from by
                    simpa [except_ok_bind, except_error_bind, dumpFields, hv, ht] using h.symm]
                  have h2 := dsize_le_dumpFields_length (.cons k2 v2 tl2) st ht
                  simp [dsize]
                  simp [dsize] at h2
                  omega
end

/-- The JSON text of a value never starts with a closing bracket (it starts
with a literal letter, a quote, a digit, a minus sign, or an opening
bracket or brace). -/
theorem dumpVal_head_ne (v : PyVal) : ∀ (out : List Char),
    dumpVal v = .ok out → ∃ c cs, out = c :: cs ∧ ¬ (c = ']') := by
  intro out h
  cases v with
  | null =>
      exact ⟨'n', _, by simpa [except_ok_bind, except_error_bind, dumpVal] using h.symm, by decide⟩
  | bool b =>
      cases b
      · exact ⟨'f', _, by simpa [except_ok_bind, except_error_bind, dumpVal] using h.symm, by decide⟩
      · exact ⟨'t', _, by simpa [except_ok_bind, except_error_bind, dumpVal] using h.symm, by decide⟩
  | int n =>
      have hout : out = intChars n := by simpa [except_ok_bind, except_error_bind, dumpVal] using h.symm
      by_cases hn : n < 0
      · exact ⟨'-', _, by rw [hout, intChars, if_pos hn], by decide⟩
      · obtain ⟨c, cs, hcons, hdig⟩ := natChars_cons n.toNat
        exact ⟨c, cs, by rw [hout, intChars, if_neg hn, hcons],
          isDigit_ne_of_not c ']' hdig (by decide)⟩
  | str s =>
      exact ⟨'\"', _, by simpa [except_ok_bind, except_error_bind, dumpVal] using h.symm, by decide⟩
  | list items =>
      cases hs : dumpItems items with
      | error e => simp [except_ok_bind, except_error_bind, dumpVal, hs] at h
      | ok st => exact ⟨'[', st, by simpa [except_ok_bind, except_error_bind, dumpVal, hs] using h.symm, by decide⟩
  | dict fields =>
      cases hs : dumpFields fields with
      | error e => simp [except_ok_bind, except_error_bind, dumpVal, hs] at h
      | ok st => exact ⟨'\x7b', st, by simpa [except_ok_bind, except_error_bind, dumpVal, hs] using h.symm, by decide⟩
  | exc e => simp [except_ok_bind, except_error_bind, dumpVal] at h

/-- The item text of a non-empty list starts like a value, never with the
closing bracket. -/
theorem dumpItems_cons_head (hd : PyVal) (tl : PyList) (out : List Char)
    (h : dumpItems (.cons hd tl) = .ok out) : ∃ c cs, out = c :: cs ∧ ¬ (c = ']') := by
  cases tl with
  | nil =>
      cases hv : dumpVal hd with
      | error e => simp [except_ok_bind, except_error_bind, dumpItems, hv] at h
      | ok sv =>
          obtain ⟨c, cs0, hsv, hne⟩ := dumpVal_head_ne hd sv hv
          refine ⟨c, cs0 ++ [']'], ?_, hne⟩
          rw [show out = sv ++ [']'] from by
            simpa [except_ok_bind, except_error_bind, dumpItems, hv] using h.symm, hsv]
          simp
  | cons w tl2 =>
      cases hv : dumpVal hd with
      | error e => simp [except_ok_bind, except_error_bind, dumpItems, hv] at h
      | ok sv =>
          cases ht : dumpItems (.cons w tl2) with
          | error e => simp [except_ok_bind, except_error_bind, dumpItems, hv, ht] at h
          | ok st =>
              obtain ⟨c, cs0, hsv, hne⟩ := dumpVal_head_ne hd sv hv
              refine ⟨c, cs0 ++ ',' :: st, ?_, hne⟩
              rw [show out = sv ++ ',' :: st from by
                simpa [except_ok_bind, except_error_bind, dumpItems, hv, ht] using h.symm, hsv]
              simp

/-- The entry text of a non-empty dict starts with the quote of its first
key. -/
theorem dumpFields_cons_head (k : List Char) (v : PyVal) (tl : PyDict) (out : List Char)
    (h : dumpFields (.cons k v tl) = .ok out) : ∃ cs, out = '\"' :: cs := by
  cases tl with
  | nil =>
      cases hv : dumpVal v with
      | error e => simp [except_ok_bind, except_error_bind, dumpFields, hv] at h
      | ok sv =>
          exact ⟨_, by simpa [except_ok_bind, except_error_bind, dumpFields, hv] using h.symm⟩
  | cons k2 v2 tl2 =>
      cases hv : dumpVal v with
      | error e => simp [except_ok_bind, except_error_bind, dumpFields, hv] at h
      | ok sv =>
          cases ht : dumpFields (.cons k2 v2 tl2) with
          | error e => simp [except_ok_bind, except_error_bind, dumpFields, hv, ht] at h
          | ok st =>
              exact ⟨_, by
                simpa [except_ok_bind, except_error_bind, dumpFields, hv, ht] using h.symm⟩

mutual
/-- Modelled round-trip of the JSON codec: the parser reads back exactly
the value `dumpVal` printed, leaving the rest of the input, whenever the
fuel exceeds the value's size and the rest does not begin with a digit. -/
theorem parseValue_dumpVal_rt (v : PyVal) : ∀ (out rest : List Char) (fuel : Nat),
    dumpVal v = .ok out → vsize v < fuel → headDigit rest = false →
    parseValue fuel (out ++ rest) = some (v, rest) := by
  intro out rest fuel h hf hrest
  obtain ⟨f, rfl⟩ : ∃ f, fuel = f + 1 := ⟨fuel - 1, by omega⟩
  cases v with
  | null =>
      rw [show out = ['n', 'u', 'l', 'l'] from by simpa [dumpVal] using h.symm]
      simp [parseValue, parseNullLit]
  | bool b =>
      cases b
      · rw [show out = ['f', 'a', 'l', 's', 'e'] from by simpa [dumpVal] using h.symm]
        simp [parseValue, parseFalseLit]
      · rw [show out = ['t', 'r', 'u', 'e'] from by simpa [dumpVal] using h.symm]
        simp [parseValue, parseTrueLit]
  | int n =>
      rw [show out = intChars n from by simpa [dumpVal] using h.symm]
      exact parseValue_intChars n f rest hrest
  | str s =>
      rw [show out = '\"' :: (escapeStr s ++ ['\"']) from by simpa [dumpVal] using h.symm]
      simp only [List.cons_append, List.append_assoc, List.singleton_append, List.nil_append]
      rw [parseValue, if_neg (by decide), if_neg (by decide), if_neg (by decide),
        if_pos (rfl : ('\"' : Char) = '\"')]
      rw [parseStringBody_escape s rest]
      rfl
  | list items =>
      cases hs : dumpItems items with
      | error e => simp [except_ok_bind, except_error_bind, dumpVal, hs] at h
      | ok st =>
          rw [show out = '[' :: st from by
            simpa [except_ok_bind, except_error_bind, dumpVal, hs] using h.symm]
          cases items with
          | nil =>
              rw [show st = [']'] from by simpa [dumpItems] using hs.symm]
              simp only [List.cons_append, List.singleton_append, List.nil_append]
              rw [parseValue, if_neg (by decide), if_neg (by decide), if_neg (by decide),
                if_neg (by decide), if_pos (rfl : ('[' : Char) = '[')]
              rw [parseArrayRest, if_pos (rfl : (']' : Char) = ']')]
          | cons hd tl =>
              obtain ⟨c0, cs0, hc0, hcne⟩ := dumpItems_cons_head hd tl st hs
              have hitems := parseItems_dumpItems_rt hd tl st rest f hs
                (by simp [vsize] at hf; omega)
              rw [hc0] at hitems ⊢
              simp only [List.cons_append] at hitems ⊢
              rw [parseValue, if_neg (by decide), if_neg (by decide), if_neg (by decide),
                if_neg (by decide), if_pos (rfl : ('[' : Char) = '[')]
              rw [parseArrayRest, if_neg hcne, hitems]
              rfl
  | dict fields =>
      cases hs : dumpFields fields with
      | error e => simp [except_ok_bind, except_error_bind, dumpVal, hs] at h
      | ok st =>
          rw [show out = '\x7b' :: st from by
            simpa [except_ok_bind, except_error_bind, dumpVal, hs] using h.symm]
          cases fields with
          | nil =>
              rw [show st = ['\x7d'] from by simpa [dumpFields] using hs.symm]
              simp only [List.cons_append, List.singleton_append, List.nil_append]
              rw [parseValue, if_neg (by decide), if_neg (by decide), if_neg (by decide),
                if_neg (by decide), if_neg (by decide), if_pos (rfl : ('\x7b' : Char) = '\x7b')]
              rw [parseObjectRest, if_pos (rfl : ('\x7d' : Char) = '\x7d')]
          | cons k v tl =>
              obtain ⟨cs0, hc0⟩ := dumpFields_cons_head k v tl st hs
              have hflds := parseFields_dumpFields_rt k v tl st rest f hs
                (by simp [vsize] at hf; omega)
              rw [hc0] at hflds ⊢
              simp only [List.cons_append] at hflds ⊢
              rw [parseValue, if_neg (by decide), if_neg (by decide), if_neg (by decide),
                if_neg (by decide), if_neg (by decide), if_pos (rfl : ('\x7b' : Char) = '\x7b')]
              rw [parseObjectRest, if_neg (by decide), hflds]
              rfl
  | exc e => simp [dumpVal] at h
termination_by sizeOf v

/-- Round-trip of the items of a non-empty array. -/
theorem parseItems_dumpItems_rt (hd : PyVal) (tl : PyList) : ∀ (out rest : List Char) (fuel : Nat),
    dumpItems (.cons hd tl) = .ok out → lsize (.cons hd tl) < fuel →
    parseItems fuel (out ++ rest) = some (.cons hd tl, rest) := by
  intro out rest fuel h hf
  obtain ⟨f, rfl⟩ : ∃ f, fuel = f + 1 := ⟨fuel - 1, by omega⟩
  cases tl with
  | nil =>
      cases hv : dumpVal hd with
      | error e => simp [except_ok_bind, except_error_bind, dumpItems, hv] at h
      | ok sv =>
          rw [show out = sv ++ [']'] from by
            simpa [except_ok_bind, except_error_bind, dumpItems, hv] using h.symm]
          have hval := parseValue_dumpVal_rt hd sv (']' :: rest) f hv
            (by simp [lsize] at hf; omega) rfl
          rw [show (sv ++ [']']) ++ rest = sv ++ (']' :: rest) from by simp]
          rw [parseItems, hval]
          rw [show (match some (hd, ']' :: rest) with
              | none => none
              | some (v, r1) => parseItemsSep f v r1)
            = parseItemsSep f hd (']' :: rest) from rfl]
          rw [parseItemsSep, if_pos (rfl : (']' : Char) = ']')]
  | cons w tl2 =>
      cases hv : dumpVal hd with
      | error e => simp [except_ok_bind, except_error_bind, dumpItems, hv] at h
      | ok sv =>
          cases ht : dumpItems (.cons w tl2) with
          | error e => simp [except_ok_bind, except_error_bind, dumpItems, hv, ht] at h
          | ok st =>
              rw [show out = sv ++ ',' :: st from by
                simpa [except_ok_bind, except_error_bind, dumpItems, hv, ht] using h.symm]
              have hval := parseValue_dumpVal_rt hd sv (',' :: (st ++ rest)) f hv
                (by simp [lsize] at hf; omega) rfl
              have hrec := parseItems_dumpItems_rt w tl2 st rest f ht
                (by simp [lsize] at hf ⊢; omega)
              rw [show (sv ++ ',' :: st) ++ rest = sv ++ (',' :: (st ++ rest)) from by simp]
              rw [parseItems, hval]
              rw [show (match some (hd, ',' :: (st ++ rest)) with
                  | none => none
                  | some (v, r1) => parseItemsSep f v r1)
                = parseItemsSep f hd (',' :: (st ++ rest)) from rfl]
              rw [parseItemsSep, if_neg (by decide), if_pos (rfl : (',' : Char) = ','), hrec]
              rfl
termination_by 1 + sizeOf hd + sizeOf tl

/-- Round-trip of the entries of a non-empty object. -/
theorem parseFields_dumpFields_rt (k : List Char) (v : PyVal) (tl : PyDict) :
    ∀ (out rest : List Char) (fuel : Nat),
    dumpFields (.cons k v tl) = .ok out → dsize (.cons k v tl) < fuel →
    parseFields fuel (out ++ rest) = some (.cons k v tl, rest) := by
  intro out rest fuel h hf
  obtain ⟨f, rfl⟩ : ∃ f, fuel = f + 1 := ⟨fuel - 1, by omega⟩
  cases tl with
  | nil =>
      cases hv : dumpVal v with
      | error e => simp [except_ok_bind, except_error_bind, dumpFields, hv] at h
      | ok sv =>
          rw [show out = '\"' :: (escapeStr k ++ '\"' :: ':' :: sv ++ ['\x7d']) from by
            simpa [except_ok_bind, except_error_bind, dumpFields, hv] using h.symm]
          have hval := parseValue_dumpVal_rt v sv ('\x7d' :: rest) f hv
            (by simp [dsize] at hf; omega) rfl
          rw [show ('\"' :: (escapeStr k ++ '\"' :: ':' :: sv ++ ['\x7d'])) ++ rest
              = '\"' :: (escapeStr k ++ ('\"' :: (':' :: (sv ++ ('\x7d' :: rest))))) from by
            simp]
          rw [parseFields]
          rw [parseStringBody_escape k (':' :: (sv ++ ('\x7d' :: rest)))]
          rw [show (match some (k, ':' :: (sv ++ ('\x7d' :: rest))) with
              | none => none
              | some (k2, r1) => parseFieldColon f k2 r1)
            = parseFieldColon f k (':' :: (sv ++ ('\x7d' :: rest))) from rfl]
          rw [parseFieldColon, if_pos (rfl : (':' : Char) = ':'), hval]
          rw [show (match some (v, '\x7d' :: rest) with
              | none => none
              | some (v2, r3) => parseFieldSep f k v2 r3)
            = parseFieldSep f k v ('\x7d' :: rest) from rfl]
          rw [parseFieldSep, if_pos (rfl : ('\x7d' : Char) = '\x7d')]
  | cons k2 v2 tl2 =>
      cases hv : dumpVal v with
      | error e => simp [except_ok_bind, except_error_bind, dumpFields, hv] at h
      | ok sv =>
          cases ht : dumpFields (.cons k2 v2 tl2) with
          | error e => simp [except_ok_bind, except_error_bind, dumpFields, hv, ht] at h
          | ok st =>
              rw [show out = '\"' :: (escapeStr k ++ '\"' :: ':' :: sv ++ ',' :: st) from by
                simpa [except_ok_bind, except_error_bind, dumpFields, hv, ht] using h.symm]
              have hval := parseValue_dumpVal_rt v sv (',' :: (st ++ rest)) f hv
                (by simp [dsize] at hf; omega) rfl
              have hrec := parseFields_dumpFields_rt k2 v2 tl2 st rest f ht
                (by simp [dsize] at hf ⊢; omega)
              rw [show ('\"' :: (escapeStr k ++ '\"' :: ':' :: sv ++ ',' :: st)) ++ rest
                  = '\"' :: (escapeStr k ++ ('\"' :: (':' :: (sv ++ (',' :: (st ++ rest))))))
                from by simp]
              rw [parseFields]
              rw [parseStringBody_escape k (':' :: (sv ++ (',' :: (st ++ rest))))]
              rw [show (match some (k, ':' :: (sv ++ (',' :: (st ++ rest)))) with
                  | none => none
                  | some (k2x, r1) => parseFieldColon f k2x r1)
                = parseFieldColon f k (':' :: (sv ++ (',' :: (st ++ rest)))) from rfl]
              rw [parseFieldColon, if_pos (rfl : (':' : Char) = ':'), hval]
              rw [show (match some (v, ',' :: (st ++ rest)) with
                  | none => none
                  | some (v2x, r3) => parseFieldSep f k v2x r3)
                = parseFieldSep f k v (',' :: (st ++ rest)) from rfl]
              rw [parseFieldSep, if_neg (by decide), if_pos (rfl : (',' : Char) = ','), hrec]
              rfl
termination_by 1 + sizeOf v + sizeOf tl
end

/-- Hop lists serialize to serializable Python lists. -/
theorem serializableListB_strings (l : List (List Char)) :
    serializableListB (pyListOfStrings l) = true := by
  induction l with
  | nil => rfl
  | cons s tl ih => simp [pyListOfStrings, serializableListB, serializableB, ih]

/-- The packet dict of a packet with serializable data is serializable:
its four keys are distinct and every value is serializable. -/
theorem toDict_serializable (p : Packet) (h : serializableB p.data = true) :
    serializableB p.toDict = true := by
  have hnd : (["identifier".toList, "sender".toList, "receiver".toList,
      "data".toList] : List (List Char)).Nodup := by decide
  simp [Packet.toDict, serializableB, serializableDictB, PyDict.keys,
    serializableListB_strings, h, hnd, Bool.and_eq_true]

/-- Claim C1: for every packet whose data payload is well-typed
(JSON-representable), reconstructing from each of the three representations
returns the packet unchanged: `createFromDict` inverts `toDict`,
`createFromJSON` inverts `toJSON`, and `createFromBytes` inverts `toBytes`,
preserving identifier, sender, receiver and data. -/
theorem packet_serialization_roundtrip (p : Packet) (h : serializableB p.data = true) :
    Packet.createFromDict p.toDict = some p ∧
    (∃ s, p.toJSON = Except.ok s ∧ Packet.createFromJSON s = some p) ∧
    (∃ bs, p.toBytes = Except.ok bs ∧ Packet.createFromBytes bs = some p) := by
  obtain ⟨out, hout⟩ := serializable_dumpVal_ok p.toDict (toDict_serializable p h)
  have hsize := vsize_le_dumpVal_length p.toDict out hout
  have hparse := parseValue_dumpVal_rt p.toDict out [] (out.length + 1) hout (by omega) rfl
  rw [List.append_nil] at hparse
  have hjson : Packet.createFromJSON out = some p := by
    simp [Packet.createFromJSON, hparse, createFromDict_toDict p]
  refine ⟨createFromDict_toDict p, ⟨out, ?_, hjson⟩, ⟨utf8Encode out, ?_, ?_⟩⟩
  · rw [Packet.toJSON, hout]
  · rw [Packet.toBytes, Packet.toJSON, hout]
    rfl
  · rw [Packet.createFromBytes, utf8Decode_encode out]
    simpa using hjson

/-- Witness for `packet_serialization_roundtrip` at a packet with a nested
payload. -/
theorem packet_serialization_roundtrip_witness :
    serializableB examplePacketA.data = true ∧
    (Packet.createFromDict examplePacketA.toDict = some examplePacketA ∧
     (∃ s, examplePacketA.toJSON = Except.ok s ∧
        Packet.createFromJSON s = some examplePacketA) ∧
     (∃ bs, examplePacketA.toBytes = Except.ok bs ∧
        Packet.createFromBytes bs = some examplePacketA)) :=
  ⟨by decide, packet_serialization_roundtrip examplePacketA (by decide)⟩

/-- Claim C4: `COBS_encode` maps each of the conformance-vector plaintexts
of the specification's test table to exactly the listed encoding; in
particular the 254-nonzero-byte frame gets the single `0xFF` group and
`11 22 00 33 00` encodes to `03 11 22 02 33 00`. -/
theorem COBS_encode_conformance_vectors :
    COBS_encode [0, 0] = [1, 1, 0] ∧
    COBS_encode [0, 0, 0] = [1, 1, 1, 0] ∧
    COBS_encode [0x11, 0x22, 0x33, 0x44, 0] = [5, 0x11, 0x22, 0x33, 0x44, 0] ∧
    COBS_encode [0x11, 0x22, 0, 0x33, 0] = [3, 0x11, 0x22, 2, 0x33, 0] ∧
    COBS_encode [0x11, 0, 0, 0, 0] = [2, 0x11, 1, 1, 1, 0] ∧
    COBS_encode (List.range' 1 254 ++ [0]) = 255 :: List.range' 1 254 ++ [0] ∧
    COBS_encode (List.range' 0 255 ++ [0]) = 1 :: 255 :: List.range' 1 254 ++ [0] ∧
    COBS_encode (List.range' 1 255 ++ [0]) = 255 :: List.range' 1 254 ++ [2, 255, 0] := by
  set_option maxRecDepth 100000 in
  exact ⟨by decide, by decide, by decide, by decide, by decide, by decide, by decide, by decide⟩

/-- Claim C3: the COBS round-trip fails on the null-terminated byte string
made of 254 `0x01` bytes followed by `0x00 0x00`.  The encoder emits the
group code `0xFF` for a 254-byte group that was terminated by a zero, which
the decoder (like standard COBS) reads as a zero-less group unless it is the
final group, so the interior zero is lost: decoding the encoding returns the
input minus one zero byte. -/
theorem COBS_roundtrip_failure :
    COBS_decode (COBS_encode (List.replicate 254 1 ++ [0, 0]))
      = List.replicate 254 1 ++ [0] ∧
    COBS_decode (COBS_encode (List.replicate 254 1 ++ [0, 0]))
      ≠ List.replicate 254 1 ++ [0, 0] := by
  set_option maxRecDepth 100000 in
  exact ⟨by decide, by decide⟩

/-- Claim C7: a packet taken by none of the three predicates is answered
with nothing at all: `__handleIncomingPackets` constructs the no-taker
exception reply but the send is commented out, so the sent-packet list is
empty (the specification mandates sending the reply). -/
theorem noTaker_reply_constructed_but_not_sent :
    handleIncomingOne [] noTakerPacket
      = .dropped (noTakerPacket.createReply noTakerData) ∧
    sentPackets (handleIncomingOne [] noTakerPacket) = [] := by
  exact ⟨by decide, by decide⟩

/-- Claim C6: a handler that raises a non-`TypeError` condition
(`ValueError` here) is not captured: the error escapes `__handleIslet`
(aborting the isle's event loop) and no exception reply is sent, because the
dispatcher's `try` only catches `TypeError`. -/
theorem handler_error_escapes_event_loop :
    handleIncomingOne exampleRoutesBoom handlerErrorPacket
      = .crashed true (.raised ("ValueError".toList) ("boom".toList)) ∧
    sentPackets (handleIncomingOne exampleRoutesBoom handlerErrorPacket) = [] := by
  exact ⟨by decide, by decide⟩

/-- Claim C5 (counterexample): `__handleIslet` dispatches on receiver length
alone.  The isle with identifier `A` dispatches the two-hop packet whose
receiver tail names isle `B` to the exposed handler `f`, so "the tail equals
this isle's identifier" is not part of the dispatch condition. -/
theorem islet_dispatch_ignores_receiver_tail :
    dispatchedHandler (handleIncomingOne exampleRoutesF isletMismatchPacket) = true ∧
    isletMismatchPacket.receiver.getLast? = some ("B".toList) ∧
    ¬ isletMismatchPacket.receiver.getLast? = some ("A".toList) := by
  exact ⟨by decide, by decide, by decide⟩

/-- Claim C9: `Server.__init__` assigns the literal `44168` to `self.port`
instead of the `port` argument, so a server constructed with port `8080` is
bound to `44168`. -/
theorem server_binds_hardcoded_port :
    serverBindAddress ("127.0.0.1".toList) 8080 = ("127.0.0.1".toList, 44168) ∧
    (44168 : Nat) ≠ 8080 := by
  exact ⟨rfl, by decide⟩

/-- Claim C10 (counterexample): the shutdown join phase runs
`entry["thread"].join()` on every membership entry, so a map holding one
TempIsle entry with a null thread-handle raises `AttributeError` instead of
completing with no joins. -/
theorem stop_join_fails_on_null_thread_handle :
    stopJoinThreads [("tempisle".toList, none)]
      = .error (.raised ("AttributeError".toList)
          ("NoneType object has no attribute join".toList)) ∧
    ¬ stopJoinThreads [("tempisle".toList, none)] = .ok [] := by
  refine ⟨rfl, fun h => ?_⟩
  rw [show stopJoinThreads [("tempisle".toList, none)]
      = .error (.raised ("AttributeError".toList)
          ("NoneType object has no attribute join".toList)) from rfl] at h
  exact Except.noConfusion h

/-- Claim C8: the call proxy accumulates a reversed path, so the chain
`call.a.b.c(v1, v2, kx=vx)` yields a packet with receiver `[c, b, a]`
(final destination first), sender `[ownerId]`, and
`data = {args: [v1, v2], kwargs: {kx: vx}}`. -/
theorem sugarcall_reversed_route_and_data (ownerId freshId a b c : List Char)
    (v1 v2 : PyVal) (kx : List Char) (vx : PyVal) :
    sugarAttr (sugarAttr (sugarAttr [] a) b) c = [c, b, a] ∧
    (sugarCallPacket ownerId freshId (sugarAttr (sugarAttr (sugarAttr [] a) b) c)
        (.cons v1 (.cons v2 .nil)) (.cons kx vx .nil)).receiver = [c, b, a] ∧
    (sugarCallPacket ownerId freshId (sugarAttr (sugarAttr (sugarAttr [] a) b) c)
        (.cons v1 (.cons v2 .nil)) (.cons kx vx .nil)).sender = [ownerId] ∧
    (sugarCallPacket ownerId freshId (sugarAttr (sugarAttr (sugarAttr [] a) b) c)
        (.cons v1 (.cons v2 .nil)) (.cons kx vx .nil)).data
      = .dict (.cons argsKey (.list (.cons v1 (.cons v2 .nil)))
          (.cons kwargsKey (.dict (.cons kx vx .nil)) .nil)) := by
  exact ⟨rfl, rfl, rfl, rfl⟩

/-- Claim C10 (amended): the shutdown sequence joins the thread-handle of
every membership entry in order; when every entry has an execution context
it completes, joining exactly the registered handles.  (With a null-handle
TempIsle entry present it instead raises, see the counterexample.) -/
theorem stop_joins_exactly_live_threads (isles : List (List Char × Option Nat))
    (h : ∀ e ∈ isles, e.2 ≠ none) :
    stopJoinThreads isles = .ok (isles.filterMap (fun e => e.2)) := by
  induction isles with
  | nil => rfl
  | cons e tl ih =>
      obtain ⟨name, t⟩ := e
      cases t with
      | none => exact absurd rfl (h (name, none) (by simp))
      | some x =>
          have htl : ∀ e ∈ tl, e.2 ≠ none := fun e he => h e (List.mem_cons_of_mem _ he)
          simp [stopJoinThreads, ih htl, List.filterMap_cons, Except.map]

/-- Witness for `stop_joins_exactly_live_threads` at a two-entry map. -/
theorem stop_joins_exactly_live_threads_witness :
    stopJoinThreads [("a".toList, some 1), ("b".toList, some 2)] = .ok [1, 2] := by
  have h := stop_joins_exactly_live_threads
    [("a".toList, some 1), ("b".toList, some 2)] (by decide)
  simpa using h

/-- Claim C5 (amended): an incoming packet that carries no `return` marker
is handed to the islet dispatcher exactly when its receiver has two
remaining hops — the receiver tail is never consulted.  A handler runs only
if `receiver[-2]` is exposed: an unexposed name raises an uncaught
`KeyError` (aborting the event loop) and no handler is invoked, while an
exposed name with well-formed `args`/`kwargs` payload is dispatched. -/
theorem islet_dispatch_amended (routes : Routes) (p : Packet)
    (hret : pyContains p.data retKey = .ok false) :
    (dispatchedHandler (handleIncomingOne routes p) = true →
      p.receiver.length = 2 ∧ (routesLookup routes (recvHop2 p.receiver)).isSome = true) ∧
    (p.receiver.length = 2 → routesLookup routes (recvHop2 p.receiver) = none →
      handleIncomingOne routes p = .crashed false (.keyError (recvHop2 p.receiver))) ∧
    (∀ f a k, p.receiver.length = 2 → routesLookup routes (recvHop2 p.receiver) = some f →
      pySubscript p.data argsKey = .ok a →
      pySubscript p.data kwargsKey = .ok k →
      dispatchedHandler (handleIncomingOne routes p) = true) := by
  refine ⟨?_, ?_, ?_⟩
  · intro hd
    by_cases h2 : p.receiver.length = 2
    · refine ⟨h2, ?_⟩
      cases hl : routesLookup routes (recvHop2 p.receiver) with
      | none => simp [handleIncomingOne, hret, h2, hl, dispatchedHandler] at hd
      | some f => simp
    · simp only [handleIncomingOne, hret, h2, if_false] at hd
      split at hd <;> simp [dispatchedHandler] at hd
  · intro h2 hl
    simp [handleIncomingOne, hret, h2, hl]
  · intro f a k h2 hl ha hk
    simp only [handleIncomingOne, hret, h2, hl, ha, hk, if_true]
    cases hfr : f a k with
    | ok v => simp [dispatchedHandler]
    | error e => cases e <;> simp [dispatchedHandler]

/-- Witness for `islet_dispatch_amended`: the two-hop packet for the
exposed handler `f` is dispatched. -/
theorem islet_dispatch_amended_witness :
    pyContains isletMismatchPacket.data retKey = .ok false ∧
    dispatchedHandler (handleIncomingOne exampleRoutesF isletMismatchPacket) = true :=
  ⟨rfl,
    (islet_dispatch_amended exampleRoutesF isletMismatchPacket rfl).2.2
      (fun _ _ => .ok .null) (.list .nil) (.dict .nil) rfl rfl rfl rfl⟩

/-- Skipping a prefix of non-matching packets: the poll loop rotates each
of them to the back of the queue and then resolves the first packet whose
identifier matches the request, provided the deadline allows that many
polls. -/
theorem rrLoop_rotate_to_match (selfId reqId : List Char) (recv : List (List Char))
    (q : Packet) (hq : q.identifier = reqId) :
    ∀ (pre : List Packet) (fuel : Nat) (post : List Packet),
      (∀ x ∈ pre, x.identifier ≠ reqId) → pre.length < fuel →
      requestResponseLoop selfId reqId recv fuel (pre ++ q :: post) = rrResolve q := by
  intro pre
  induction pre with
  | nil =>
      intro fuel post hpre hf
      obtain ⟨f, rfl⟩ : ∃ f, fuel = f + 1 := ⟨fuel - 1, by omega⟩
      simp [requestResponseLoop, hq]
  | cons a tl ih =>
      intro fuel post hpre hf
      obtain ⟨f, rfl⟩ : ∃ f, fuel = f + 1 := ⟨fuel - 1, by omega⟩
      have ha : ¬ a.identifier = reqId := hpre a (by simp)
      have hstep : requestResponseLoop selfId reqId recv (f + 1) ((a :: tl) ++ q :: post)
          = requestResponseLoop selfId reqId recv f ((tl ++ q :: post) ++ [a]) := by
        simp [requestResponseLoop, ha]
      rw [hstep, show (tl ++ q :: post) ++ [a] = tl ++ q :: (post ++ [a]) by simp]
      exact ih f (post ++ [a]) (fun x hx => hpre x (List.mem_cons_of_mem _ hx))
        (by simp at hf ⊢; omega)

/-- A queue with no matching packet only rotates until the deadline
passes. -/
theorem rrLoop_no_match_timeout (selfId reqId : List Char) (recv : List (List Char)) :
    ∀ (fuel : Nat) (queue : List Packet), (∀ x ∈ queue, x.identifier ≠ reqId) →
      requestResponseLoop selfId reqId recv fuel queue
        = .timeoutError selfId reqId recv := by
  intro fuel
  induction fuel with
  | zero => intro queue h; rfl
  | succ f ih =>
      intro queue h
      cases queue with
      | nil => simpa [requestResponseLoop] using ih [] (by simp)
      | cons qh qt =>
          have hqh : ¬ qh.identifier = reqId := h qh (by simp)
          have hstep : requestResponseLoop selfId reqId recv (f + 1) (qh :: qt)
              = requestResponseLoop selfId reqId recv f (qt ++ [qh]) := by
            simp [requestResponseLoop, hqh]
          rw [hstep]
          refine ih (qt ++ [qh]) (fun x hx => ?_)
          rcases List.mem_append.mp hx with h1 | h1
          · exact h x (List.mem_cons_of_mem _ h1)
          · simp at h1; subst h1; exact hqh


/-- A matching reply whose data dict has a `return` entry resolves to that
value. -/
theorem rrResolve_return (q : Packet) (d : PyDict) (v : PyVal)
    (hd : q.data = .dict d) (hv : d.lookup retKey = some v) :
    rrResolve q = .returned v := by
  simp [rrResolve, hd, pyContains, pySubscript, hv]

/-- A matching reply whose data dict has an `exception` entry but no
`return` entry resolves by raising that value at the caller. -/
theorem rrResolve_exception (q : Packet) (d : PyDict) (e : PyVal)
    (hd : q.data = .dict d) (hret : d.lookup retKey = none)
    (hexc : d.lookup excKey = some e) :
    rrResolve q = .raisedExc e := by
  simp [rrResolve, hd, pyContains, pySubscript, hret, hexc]

/-- Claim C2: `requestResponse` returns the `return` value of the first
inbound packet whose identifier matches the request, raises the
`exception` value of a matching reply that carries one (and no `return`),
and, when no matching reply is in the inbound queue, times out with an
error naming the isle, the packet identifier and the destination — the
deadline permitting the needed number of polls in the first two cases. -/
theorem requestResponse_spec (selfId : List Char) (p : Packet) :
    (∀ (pre post : List Packet) (q : Packet) (d : PyDict) (v : PyVal) (fuel : Nat),
        (∀ x ∈ pre, x.identifier ≠ p.identifier) →
        q.identifier = p.identifier → q.data = .dict d →
        d.lookup retKey = some v →
        pre.length < fuel →
        requestResponse selfId p fuel (pre ++ q :: post) = .returned v) ∧
    (∀ (pre post : List Packet) (q : Packet) (d : PyDict) (e : PyVal) (fuel : Nat),
        (∀ x ∈ pre, x.identifier ≠ p.identifier) →
        q.identifier = p.identifier → q.data = .dict d →
        d.lookup retKey = none →
        d.lookup excKey = some e →
        pre.length < fuel →
        requestResponse selfId p fuel (pre ++ q :: post) = .raisedExc e) ∧
    (∀ (queue : List Packet) (fuel : Nat),
        (∀ x ∈ queue, x.identifier ≠ p.identifier) →
        requestResponse selfId p fuel queue
          = .timeoutError selfId p.identifier p.receiver) := by
  refine ⟨?_, ?_, ?_⟩
  · intro pre post q d v fuel hpre hq hd hv hf
    rw [requestResponse,
      rrLoop_rotate_to_match selfId p.identifier p.receiver q hq pre fuel post hpre hf,
      rrResolve_return q d v hd hv]
  · intro pre post q d e fuel hpre hq hd hret hexc hf
    rw [requestResponse,
      rrLoop_rotate_to_match selfId p.identifier p.receiver q hq pre fuel post hpre hf,
      rrResolve_exception q d e hd hret hexc]
  · intro queue fuel h
    exact rrLoop_no_match_timeout selfId p.identifier p.receiver fuel queue h

/-- Witness for `requestResponse_spec`: a return reply behind one unrelated
packet, an exception reply behind one unrelated packet, and a queue holding
only the unrelated packet. -/
theorem requestResponse_spec_witness :
    requestResponse ("me".toList) pendingRequestPacket 3
        [unrelatedPacket, pendingRequestPacket.createReply (retReplyData (.int 6))]
      = .returned (.int 6) ∧
    requestResponse ("me".toList) pendingRequestPacket 3
        [unrelatedPacket, pendingRequestPacket.createReply
          (excReplyData (.raised ("ZeroDivisionError".toList) ("division by zero".toList)))]
      = .raisedExc (.exc (.raised ("ZeroDivisionError".toList) ("division by zero".toList))) ∧
    requestResponse ("me".toList) pendingRequestPacket 5 [unrelatedPacket]
      = .timeoutError ("me".toList) ("rid".toList) ["double".toList, "srv".toList] := by
  refine ⟨?_, ?_, ?_⟩
  · exact (requestResponse_spec ("me".toList) pendingRequestPacket).1
      [unrelatedPacket] [] _ (.cons retKey (.int 6) .nil) (.int 6) 3
      (by decide) rfl rfl rfl (by decide)
  · exact (requestResponse_spec ("me".toList) pendingRequestPacket).2.1
      [unrelatedPacket] [] _
      (.cons excKey
        (.exc (.raised ("ZeroDivisionError".toList) ("division by zero".toList))) .nil)
      (.exc (.raised ("ZeroDivisionError".toList) ("division by zero".toList))) 3
      (by decide) rfl rfl rfl rfl (by decide)
  · exact (requestResponse_spec ("me".toList) pendingRequestPacket).2.2
      [unrelatedPacket] 5 (by decide)

end Isles
